import Mathlib

/-!
Shallow embedding of the filter-and-aggregate pipeline of the LA County
zip-code dashboard (src/app.py), and proofs of the specified properties.

Modelling conventions: pandas float columns are modelled as rationals
(all arithmetic in the pipeline is exact field arithmetic); text columns
as strings; a float NaN (missing value, undefined statistic) as Option
with none; a raised pandas error as Except.  Boolean-mask filtering of a
dataframe is List.filter, which keeps original row order exactly as a
pandas boolean mask does.
-/

/-- One record of the loaded dataset (one row per zip code), with the columns
the dashboard's pipeline reads.  Float columns are modelled as rationals. -/
structure Rec where
  zip_code : Nat
  primary_city : String
  score_category : String
  composite_score : ℚ
  density_score : ℚ
  transit_score : ℚ
  income_score : ℚ
  education_score : ℚ
  housing_score : ℚ
  median_income : ℚ
  median_home_value : ℚ
  estimated_population : ℚ
deriving DecidableEq

/-- The sidebar filter, src/app.py lines 106-114: an equality filter on
score_category skipped for the sentinel "All", then an equality filter on
primary_city skipped for "All", then an inclusive range filter on
composite_score, applied sequentially to boolean-mask the dataframe. -/
def filteredDf (cat city : String) (lo hi : ℚ) (df : List Rec) : List Rec :=
  let d1 := if cat = "All" then df else df.filter fun r => decide (r.score_category = cat)
  let d2 := if city = "All" then d1 else d1.filter fun r => decide (r.primary_city = city)
  d2.filter fun r => decide (lo ≤ r.composite_score) && decide (r.composite_score ≤ hi)

/-- The conjunction of the three sidebar predicates on a single record:
category matches or is "All", city matches or is "All", and the composite
score lies in the inclusive range. -/
def recPassB (cat city : String) (lo hi : ℚ) (r : Rec) : Bool :=
  (decide (cat = "All") || decide (r.score_category = cat)) &&
  ((decide (city = "All") || decide (r.primary_city = city)) &&
   (decide (lo ≤ r.composite_score) && decide (r.composite_score ≤ hi)))

theorem filteredDf_eq_filter (cat city : String) (lo hi : ℚ) (df : List Rec) :
    filteredDf cat city lo hi df = df.filter (recPassB cat city lo hi) := by
  unfold filteredDf recPassB
  dsimp only
  by_cases h1 : cat = "All" <;> by_cases h2 : city = "All"
  · subst h1; subst h2; simp
  · subst h1
    rw [if_pos rfl, if_neg h2, List.filter_filter]
    refine List.filter_congr fun r _ => ?_
    cases hB : decide (r.primary_city = city) <;>
      cases hC : decide (lo ≤ r.composite_score) <;>
      cases hD : decide (r.composite_score ≤ hi) <;>
      simp [h2, hB, hC, hD]
  · subst h2
    rw [if_pos rfl, if_neg h1, List.filter_filter]
    refine List.filter_congr fun r _ => ?_
    cases hA : decide (r.score_category = cat) <;>
      cases hC : decide (lo ≤ r.composite_score) <;>
      cases hD : decide (r.composite_score ≤ hi) <;>
      simp [h1, hA, hC, hD]
  · rw [if_neg h1, if_neg h2, List.filter_filter, List.filter_filter]
    refine List.filter_congr fun r _ => ?_
    cases hA : decide (r.score_category = cat) <;>
      cases hB : decide (r.primary_city = city) <;>
      cases hC : decide (lo ≤ r.composite_score) <;>
      cases hD : decide (r.composite_score ≤ hi) <;>
      simp [h1, h2, hA, hB, hC, hD]

/-- Scenario record 1: composite score 10, category "Poor". -/
def scn1 : Rec :=
  { zip_code := 90001, primary_city := "Los Angeles", score_category := "Poor",
    composite_score := 10, density_score := 0, transit_score := 0, income_score := 0,
    education_score := 0, housing_score := 0, median_income := 0, median_home_value := 0,
    estimated_population := 0 }

/-- Scenario record 2: composite score 50, category "Average". -/
def scn2 : Rec :=
  { zip_code := 90002, primary_city := "Inglewood", score_category := "Average",
    composite_score := 50, density_score := 0, transit_score := 0, income_score := 0,
    education_score := 0, housing_score := 0, median_income := 0, median_home_value := 0,
    estimated_population := 0 }

/-- Scenario record 3: composite score 90, category "Excellent". -/
def scn3 : Rec :=
  { zip_code := 90003, primary_city := "Torrance", score_category := "Excellent",
    composite_score := 90, density_score := 0, transit_score := 0, income_score := 0,
    education_score := 0, housing_score := 0, median_income := 0, median_home_value := 0,
    estimated_population := 0 }

/-- C1: the sidebar filter returns exactly the subset of records satisfying all
given predicates simultaneously (logical AND, with "All" sentinels disabling
the equality predicates and both range bounds inclusive), preserving original
row order (the result is a sublist of the input); in particular the 3-record
scenario with composite scores 10, 50, 90 filtered with category "All",
city "All" and range 40..100 returns exactly the records with scores 50 and 90
in original order.  An empty result is an ordinary value of the operation. -/
theorem C1_filter_exact :
    (∀ (cat city : String) (lo hi : ℚ) (df : List Rec),
        (filteredDf cat city lo hi df).Sublist df
      ∧ ∀ r : Rec, r ∈ filteredDf cat city lo hi df ↔
          r ∈ df ∧ ((cat = "All" ∨ r.score_category = cat)
            ∧ (city = "All" ∨ r.primary_city = city)
            ∧ lo ≤ r.composite_score ∧ r.composite_score ≤ hi))
  ∧ filteredDf "All" "All" 40 100 [scn1, scn2, scn3] = [scn2, scn3] := by
  constructor
  · intro cat city lo hi df
    rw [filteredDf_eq_filter]
    refine ⟨List.filter_sublist df, fun r => ?_⟩
    simp [List.mem_filter, recPassB, and_assoc]
  · decide

/-- Closed instance of C1: the scenario filter applied through the theorem. -/
theorem C1_filter_exact_witness :
    filteredDf "All" "All" 40 100 [scn1, scn2, scn3] = [scn2, scn3] :=
  C1_filter_exact.2

/-- C8: the sidebar filter is idempotent (re-filtering its own output with the
same predicate set returns the same rows) and composes by conjunction (two
successive filters equal a single pass keeping the records that satisfy the
conjunction of both predicate sets). -/
theorem C8_filter_algebra :
    ∀ (cat city : String) (lo hi : ℚ) (cat2 city2 : String) (lo2 hi2 : ℚ) (df : List Rec),
      filteredDf cat city lo hi (filteredDf cat city lo hi df) = filteredDf cat city lo hi df
    ∧ filteredDf cat2 city2 lo2 hi2 (filteredDf cat city lo hi df)
        = df.filter fun r => recPassB cat city lo hi r && recPassB cat2 city2 lo2 hi2 r := by
  intro cat city lo hi cat2 city2 lo2 hi2 df
  constructor
  · rw [filteredDf_eq_filter, filteredDf_eq_filter, List.filter_filter]
    refine List.filter_congr fun r _ => ?_
    exact Bool.and_self _
  · rw [filteredDf_eq_filter, filteredDf_eq_filter, List.filter_filter]
    refine List.filter_congr fun r _ => ?_
    exact Bool.and_comm _ _

/-- Closed instance of C8: idempotence at the scenario table and predicates. -/
theorem C8_filter_algebra_witness :
    filteredDf "All" "All" 40 100 (filteredDf "All" "All" 40 100 [scn1, scn2, scn3])
      = filteredDf "All" "All" 40 100 [scn1, scn2, scn3] :=
  (C8_filter_algebra "All" "All" 40 100 "All" "All" 40 100 [scn1, scn2, scn3]).1

/-- Insert x into an accumulator, after every leading element y with le y x.
This is the insertion point of a stable left-to-right insertion sort: an
element equal to x under le stays before x. -/
def insSorted {α : Type*} (le : α → α → Bool) (x : α) : List α → List α
  | [] => [x]
  | y :: t => if le y x then y :: insSorted le x t else x :: y :: t

/-- Stable sort by the boolean preorder le.  This models the stable sorts of
the source: sort_values with ties left in input order and nlargest/nsmallest
with the default keep of first (pandas selects and orders tied rows by first
occurrence).  Elements are inserted left to right, so le-equal elements keep
their original relative order. -/
def stableSortBy {α : Type*} (le : α → α → Bool) (l : List α) : List α :=
  l.foldl (fun acc x => insSorted le x acc) []

theorem mem_insSorted {α : Type*} (le : α → α → Bool) (x : α) (l : List α) (a : α) :
    a ∈ insSorted le x l ↔ a = x ∨ a ∈ l := by
  induction l with
  | nil => simp [insSorted]
  | cons y t ih =>
    by_cases h : le y x = true
    · simp [insSorted, h, ih]
      tauto
    · simp [insSorted, h]

theorem pairwise_insSorted {α : Type*} {le : α → α → Bool}
    (htrans : ∀ a b c : α, le a b = true → le b c = true → le a c = true)
    (htot : ∀ a b : α, (le a b || le b a) = true)
    (x : α) {l : List α} (hl : l.Pairwise (fun a b => le a b = true)) :
    (insSorted le x l).Pairwise (fun a b => le a b = true) := by
  induction l with
  | nil => simp [insSorted]
  | cons y t ih =>
    rcases List.pairwise_cons.mp hl with ⟨hy, ht⟩
    by_cases h : le y x = true
    · rw [insSorted, if_pos h]
      refine List.pairwise_cons.mpr ⟨?_, ih ht⟩
      intro z hz
      rcases (mem_insSorted le x t z).mp hz with rfl | hz
      · exact h
      · exact hy z hz
    · rw [insSorted, if_neg h]
      have hxy : le x y = true := by
        have := htot y x
        rcases Bool.or_eq_true_iff.mp this with h1 | h1
        · exact absurd h1 h
        · exact h1
      refine List.pairwise_cons.mpr ⟨?_, hl⟩
      intro z hz
      rcases List.mem_cons.mp hz with rfl | hz
      · exact hxy
      · exact htrans x y z hxy (hy z hz)

theorem perm_insSorted {α : Type*} (le : α → α → Bool) (x : α) (l : List α) :
    (insSorted le x l).Perm (x :: l) := by
  induction l with
  | nil => simp [insSorted]
  | cons y t ih =>
    by_cases h : le y x = true
    · rw [insSorted, if_pos h]
      exact (ih.cons y).trans (List.Perm.swap x y t)
    · rw [insSorted, if_neg h]

theorem sorted_stableSortBy {α : Type*} {le : α → α → Bool}
    (htrans : ∀ a b c : α, le a b = true → le b c = true → le a c = true)
    (htot : ∀ a b : α, (le a b || le b a) = true) (l : List α) :
    (stableSortBy le l).Pairwise (fun a b => le a b = true) := by
  have aux : ∀ (l acc : List α), acc.Pairwise (fun a b => le a b = true) →
      (l.foldl (fun acc x => insSorted le x acc) acc).Pairwise
        (fun a b => le a b = true) := by
    intro l
    induction l with
    | nil => intro acc h; exact h
    | cons x t ih =>
      intro acc h
      exact ih (insSorted le x acc) (pairwise_insSorted htrans htot x h)
  exact aux l [] List.Pairwise.nil

theorem perm_stableSortBy {α : Type*} (le : α → α → Bool) (l : List α) :
    (stableSortBy le l).Perm l := by
  have aux : ∀ (l acc : List α),
      (l.foldl (fun acc x => insSorted le x acc) acc).Perm (acc ++ l) := by
    intro l
    induction l with
    | nil => intro acc; simp
    | cons x t ih =>
      intro acc
      have h1 := ih (insSorted le x acc)
      have h2 : (insSorted le x acc ++ t).Perm (acc ++ x :: t) :=
        ((perm_insSorted le x acc).append_right t).trans List.perm_middle.symm
      exact h1.trans h2
  simpa using aux l []

theorem length_stableSortBy {α : Type*} (le : α → α → Bool) (l : List α) :
    (stableSortBy le l).length = l.length :=
  (perm_stableSortBy le l).length_eq

theorem pairwiseT_insSorted {α : Type*} {le : α → α → Bool} {S : α → α → Prop}
    (htrans : ∀ a b c : α, le a b = true → le b c = true → le a c = true)
    (htot : ∀ a b : α, (le a b || le b a) = true)
    (x : α) {acc : List α}
    (hacc : acc.Pairwise fun a b => le a b = true ∧ (le b a = true → S a b))
    (hSx : ∀ y ∈ acc, S y x) :
    (insSorted le x acc).Pairwise fun a b => le a b = true ∧ (le b a = true → S a b) := by
  induction acc with
  | nil => simp [insSorted]
  | cons y t ih =>
    rcases List.pairwise_cons.mp hacc with ⟨hy, ht⟩
    by_cases h : le y x = true
    · rw [insSorted, if_pos h]
      refine List.pairwise_cons.mpr ⟨?_, ih ht fun z hz => hSx z (List.mem_cons_of_mem y hz)⟩
      intro z hz
      rcases (mem_insSorted le x t z).mp hz with rfl | hz
      · exact ⟨h, fun _ => hSx y (List.mem_cons_self y t)⟩
      · exact hy z hz
    · rw [insSorted, if_neg h]
      have hxy : le x y = true := by
        rcases Bool.or_eq_true_iff.mp (htot y x) with h1 | h1
        · exact absurd h1 h
        · exact h1
      refine List.pairwise_cons.mpr ⟨?_, hacc⟩
      intro z hz
      rcases List.mem_cons.mp hz with rfl | hz
      · exact ⟨hxy, fun hzx => absurd hzx h⟩
      · refine ⟨htrans x y z hxy (hy z hz).1, fun hzx => ?_⟩
        exact absurd (htrans y z x (hy z hz).1 hzx) h

/-- Stability of the insertion sort: if the input is pairwise related by S
(for example, already ordered by an earlier criterion), then in the sorted
output any two le-equal elements are still related by S in their output
order.  Together with sortedness this pins down stable-sort semantics. -/
theorem pairwiseT_stableSortBy {α : Type*} {le : α → α → Bool} {S : α → α → Prop}
    (htrans : ∀ a b c : α, le a b = true → le b c = true → le a c = true)
    (htot : ∀ a b : α, (le a b || le b a) = true)
    {l : List α} (hS : l.Pairwise S) :
    (stableSortBy le l).Pairwise fun a b => le a b = true ∧ (le b a = true → S a b) := by
  have aux : ∀ (l acc : List α),
      acc.Pairwise (fun a b => le a b = true ∧ (le b a = true → S a b)) →
      (∀ y ∈ acc, ∀ x ∈ l, S y x) → l.Pairwise S →
      (l.foldl (fun acc x => insSorted le x acc) acc).Pairwise
        (fun a b => le a b = true ∧ (le b a = true → S a b)) := by
    intro l
    induction l with
    | nil => intro acc hacc _ _; exact hacc
    | cons x t ih =>
      intro acc hacc hcross hl
      rcases List.pairwise_cons.mp hl with ⟨hx, ht⟩
      refine ih (insSorted le x acc)
        (pairwiseT_insSorted htrans htot x hacc fun y hy => hcross y hy x (List.mem_cons_self x t))
        ?_ ht
      intro y hy z hz
      rcases (mem_insSorted le x acc y).mp hy with rfl | hy
      · exact hx z hz
      · exact hcross y hy z (List.mem_cons_of_mem x hz)
  exact aux l [] List.Pairwise.nil (by simp) hS

/-- Lexicographic comparison of character lists by code point, the string
order pandas uses when groupby sorts its group keys. -/
def charListLeb : List Char → List Char → Bool
  | [], _ => true
  | _ :: _, [] => false
  | a :: as, b :: bs =>
    if a.toNat < b.toNat then true
    else if b.toNat < a.toNat then false
    else charListLeb as bs

/-- String comparison by the code points of the underlying characters. -/
def strLeb (s t : String) : Bool := charListLeb s.data t.data

theorem charListLeb_trans :
    ∀ a b c : List Char, charListLeb a b = true → charListLeb b c = true →
      charListLeb a c = true := by
  intro a
  induction a with
  | nil => intro b c _ _; rfl
  | cons x xs ih =>
    intro b c h1 h2
    cases b with
    | nil => exact absurd h1 (by rw [charListLeb]; exact Bool.false_ne_true)
    | cons y ys =>
      cases c with
      | nil => exact absurd h2 (by rw [charListLeb]; exact Bool.false_ne_true)
      | cons z zs =>
        rw [charListLeb] at h1 h2 ⊢
        by_cases hxy : x.toNat < y.toNat <;> by_cases hyz : y.toNat < z.toNat
        · rw [if_pos (Nat.lt_trans hxy hyz)]
        · rw [if_neg hyz] at h2
          by_cases hzy : z.toNat < y.toNat
          · rw [if_pos hzy] at h2
            exact absurd h2 Bool.false_ne_true
          · rw [if_pos (by omega : x.toNat < z.toNat)]
        · rw [if_neg hxy] at h1
          by_cases hyx : y.toNat < x.toNat
          · rw [if_pos hyx] at h1
            exact absurd h1 Bool.false_ne_true
          · rw [if_pos (by omega : x.toNat < z.toNat)]
        · rw [if_neg hxy] at h1
          rw [if_neg hyz] at h2
          by_cases hyx : y.toNat < x.toNat
          · rw [if_pos hyx] at h1
            exact absurd h1 Bool.false_ne_true
          · by_cases hzy : z.toNat < y.toNat
            · rw [if_pos hzy] at h2
              exact absurd h2 Bool.false_ne_true
            · rw [if_neg hyx] at h1
              rw [if_neg hzy] at h2
              rw [if_neg (by omega : ¬ x.toNat < z.toNat),
                if_neg (by omega : ¬ z.toNat < x.toNat)]
              exact ih ys zs h1 h2

theorem charListLeb_total :
    ∀ a b : List Char, (charListLeb a b || charListLeb b a) = true := by
  intro a
  induction a with
  | nil => intro b; rfl
  | cons x xs ih =>
    intro b
    cases b with
    | nil => rw [charListLeb, charListLeb, Bool.false_or]
    | cons y ys =>
      rw [charListLeb, charListLeb]
      rcases Nat.lt_trichotomy x.toNat y.toNat with h | h | h
      · rw [if_pos h, Bool.true_or]
      · rw [if_neg (by omega), if_neg (by omega), if_neg (by omega), if_neg (by omega)]
        exact ih ys
      · rw [if_neg (by omega), if_pos h, if_pos h, Bool.or_true]

theorem strLeb_trans (a b c : String) (h1 : strLeb a b = true) (h2 : strLeb b c = true) :
    strLeb a c = true :=
  charListLeb_trans a.data b.data c.data h1 h2

theorem strLeb_total (a b : String) : (strLeb a b || strLeb b a) = true :=
  charListLeb_total a.data b.data

/-- Boolean comparison modelling nlargest and nsmallest with the default keep
of first: order by the key value of the record (descending when desc is true,
ascending otherwise) and break ties by original position, the first component
of the enumerated pair. -/
def topNLe (desc : Bool) (key : Rec → ℚ) (a b : Nat × Rec) : Bool :=
  if desc then
    decide (key b.2 < key a.2) || (decide (key a.2 = key b.2) && decide (a.1 ≤ b.1))
  else
    decide (key a.2 < key b.2) || (decide (key a.2 = key b.2) && decide (a.1 ≤ b.1))

/-- The topN operation of src/app.py lines 180 and 189 (nlargest and nsmallest
on a sort field, generalised over n and the field as the spec requires), kept
together with original row positions: stable-sort the enumerated rows by the
field in the requested direction and truncate to n. -/
def topNIdx (desc : Bool) (n : Nat) (key : Rec → ℚ) (view : List Rec) : List (Nat × Rec) :=
  (stableSortBy (topNLe desc key) view.enum).take n

/-- The records of topNIdx without their positions: the row sequence that
nlargest or nsmallest returns. -/
def topN (desc : Bool) (n : Nat) (key : Rec → ℚ) (view : List Rec) : List Rec :=
  (topNIdx desc n key view).map Prod.snd

theorem topNLe_false (key : Rec → ℚ) (a b : Nat × Rec) :
    topNLe false key a b
      = (decide (key a.2 < key b.2) || (decide (key a.2 = key b.2) && decide (a.1 ≤ b.1))) :=
  rfl

theorem topNLe_true (key : Rec → ℚ) (a b : Nat × Rec) :
    topNLe true key a b
      = (decide (key b.2 < key a.2) || (decide (key a.2 = key b.2) && decide (a.1 ≤ b.1))) :=
  rfl

theorem topNLe_trans (desc : Bool) (key : Rec → ℚ) :
    ∀ a b c : Nat × Rec, topNLe desc key a b = true → topNLe desc key b c = true →
      topNLe desc key a c = true := by
  intro a b c h1 h2
  cases desc
  · rw [topNLe_false] at h1 h2 ⊢
    simp only [Bool.or_eq_true, Bool.and_eq_true, decide_eq_true_eq] at h1 h2 ⊢
    rcases h1 with h1 | ⟨he1, hi1⟩ <;> rcases h2 with h2 | ⟨he2, hi2⟩
    · exact Or.inl (lt_trans h1 h2)
    · exact Or.inl (he2 ▸ h1)
    · exact Or.inl (he1 ▸ h2)
    · exact Or.inr ⟨he1.trans he2, le_trans hi1 hi2⟩
  · rw [topNLe_true] at h1 h2 ⊢
    simp only [Bool.or_eq_true, Bool.and_eq_true, decide_eq_true_eq] at h1 h2 ⊢
    rcases h1 with h1 | ⟨he1, hi1⟩ <;> rcases h2 with h2 | ⟨he2, hi2⟩
    · exact Or.inl (lt_trans h2 h1)
    · exact Or.inl (he2 ▸ h1)
    · exact Or.inl (he1 ▸ h2)
    · exact Or.inr ⟨he1.trans he2, le_trans hi1 hi2⟩

theorem topNLe_total (desc : Bool) (key : Rec → ℚ) :
    ∀ a b : Nat × Rec, (topNLe desc key a b || topNLe desc key b a) = true := by
  intro a b
  cases desc
  · rw [topNLe_false, topNLe_false]
    simp only [Bool.or_eq_true, Bool.and_eq_true, decide_eq_true_eq]
    rcases lt_trichotomy (key a.2) (key b.2) with h | h | h
    · exact Or.inl (Or.inl h)
    · rcases Nat.le_total a.1 b.1 with hi | hi
      · exact Or.inl (Or.inr ⟨h, hi⟩)
      · exact Or.inr (Or.inr ⟨h.symm, hi⟩)
    · exact Or.inr (Or.inl h)
  · rw [topNLe_true, topNLe_true]
    simp only [Bool.or_eq_true, Bool.and_eq_true, decide_eq_true_eq]
    rcases lt_trichotomy (key a.2) (key b.2) with h | h | h
    · exact Or.inr (Or.inl h)
    · rcases Nat.le_total a.1 b.1 with hi | hi
      · exact Or.inl (Or.inr ⟨h, hi⟩)
      · exact Or.inr (Or.inr ⟨h.symm, hi⟩)
    · exact Or.inl (Or.inl h)

theorem nodup_fst_topNIdx (desc : Bool) (n : Nat) (key : Rec → ℚ) (view : List Rec) :
    (topNIdx desc n key view).Pairwise (fun a b => a.1 ≠ b.1) := by
  have hperm : (stableSortBy (topNLe desc key) view.enum).Perm view.enum :=
    perm_stableSortBy _ _
  have hnodup : ((stableSortBy (topNLe desc key) view.enum).map Prod.fst).Nodup := by
    refine (hperm.map Prod.fst).symm.nodup ?_
    rw [List.enum_map_fst]
    exact List.nodup_range _
  have hp : (stableSortBy (topNLe desc key) view.enum).Pairwise
      (fun a b => a.1 ≠ b.1) := List.pairwise_map.mp hnodup
  exact hp.sublist (List.take_sublist _ _)

/-- C2: for every direction, field and n, topN returns min n (view length)
rows; n equal to 0 yields the empty sequence; when n is at least the view
size all rows are returned (the truncation is the identity); and the selected
rows are pairwise ordered by the field (non-increasing in the descending
direction, non-decreasing otherwise) with ties strictly ordered by original
row position (stable tie-break). -/
theorem C2_topN :
    ∀ (desc : Bool) (n : Nat) (key : Rec → ℚ) (view : List Rec),
      (topN desc n key view).length = min n view.length
    ∧ topN desc 0 key view = []
    ∧ (view.length ≤ n → topN desc n key view = topN desc view.length key view)
    ∧ List.Pairwise
        (fun a b => (desc = true → key b.2 ≤ key a.2)
          ∧ (desc = false → key a.2 ≤ key b.2)
          ∧ (key a.2 = key b.2 → a.1 < b.1))
        (topNIdx desc n key view) := by
  intro desc n key view
  have hlen : (stableSortBy (topNLe desc key) view.enum).length = view.length := by
    rw [length_stableSortBy, List.enum_length]
  refine ⟨?_, ?_, ?_, ?_⟩
  · rw [topN, List.length_map, topNIdx, List.length_take, hlen]
  · simp [topN, topNIdx]
  · intro hn
    have h1 : (stableSortBy (topNLe desc key) view.enum).length ≤ n := hlen ▸ hn
    have h2 : (stableSortBy (topNLe desc key) view.enum).length ≤ view.length :=
      hlen.le
    rw [topN, topNIdx, List.take_of_length_le h1, topN, topNIdx,
      List.take_of_length_le h2]
  · have hsorted : (topNIdx desc n key view).Pairwise
        (fun a b => topNLe desc key a b = true) :=
      (sorted_stableSortBy (topNLe_trans desc key) (topNLe_total desc key)
        view.enum).sublist (List.take_sublist _ _)
    have hne := nodup_fst_topNIdx desc n key view
    refine (hsorted.and hne).imp ?_
    rintro a b ⟨hle, hab⟩
    cases desc
    · rw [topNLe_false] at hle
      simp only [Bool.or_eq_true, Bool.and_eq_true, decide_eq_true_eq] at hle
      refine ⟨?_, ?_, ?_⟩
      · intro h
        exact absurd h Bool.false_ne_true
      · intro _
        rcases hle with h | ⟨he, _⟩
        · exact le_of_lt h
        · exact he.le
      · intro he
        rcases hle with h | ⟨_, hi⟩
        · exact absurd he (ne_of_lt h)
        · exact lt_of_le_of_ne hi hab
    · rw [topNLe_true] at hle
      simp only [Bool.or_eq_true, Bool.and_eq_true, decide_eq_true_eq] at hle
      refine ⟨?_, ?_, ?_⟩
      · intro _
        rcases hle with h | ⟨he, _⟩
        · exact le_of_lt h
        · exact he.ge
      · intro h
        exact absurd h.symm Bool.false_ne_true
      · intro he
        rcases hle with h | ⟨_, hi⟩
        · exact absurd he (ne_of_gt h)
        · exact lt_of_le_of_ne hi hab

/-- Closed instance of C2: on the 3-record scenario table, truncation at n = 5
equals truncation at the view size, and n = 0 gives the empty sequence. -/
theorem C2_topN_witness :
    topN true 5 Rec.composite_score [scn1, scn2, scn3]
      = topN true 3 Rec.composite_score [scn1, scn2, scn3]
    ∧ topN true 0 Rec.composite_score [scn1, scn2, scn3] = [] :=
  ⟨(C2_topN true 5 Rec.composite_score [scn1, scn2, scn3]).2.2.1 (by decide),
   (C2_topN true 0 Rec.composite_score [scn1, scn2, scn3]).2.1⟩

/-- Deduplication keeping the first occurrence of each key, via an accumulator
of the keys already seen (in reverse). -/
def firstSeenGo : List String → List String → List String
  | acc, [] => acc.reverse
  | acc, x :: t => if acc.contains x then firstSeenGo acc t else firstSeenGo (x :: acc) t

theorem nodup_firstSeenGo :
    ∀ (l acc : List String), acc.Nodup → (firstSeenGo acc l).Nodup := by
  intro l
  induction l with
  | nil =>
    intro acc h
    rw [firstSeenGo]
    exact List.nodup_reverse.mpr h
  | cons x t ih =>
    intro acc h
    rw [firstSeenGo]
    by_cases hc : acc.contains x = true
    · rw [if_pos hc]
      exact ih acc h
    · rw [if_neg hc]
      refine ih (x :: acc) (List.nodup_cons.mpr ⟨?_, h⟩)
      intro hmem
      exact hc (List.elem_eq_true_of_mem hmem)

theorem mem_firstSeenGo :
    ∀ (l acc : List String) (x : String), x ∈ firstSeenGo acc l → x ∈ acc ∨ x ∈ l := by
  intro l
  induction l with
  | nil =>
    intro acc x h
    rw [firstSeenGo] at h
    exact Or.inl (List.mem_reverse.mp h)
  | cons y t ih =>
    intro acc x h
    rw [firstSeenGo] at h
    by_cases hc : acc.contains y = true
    · rw [if_pos hc] at h
      rcases ih acc x h with h1 | h1
      · exact Or.inl h1
      · exact Or.inr (List.mem_cons_of_mem y h1)
    · rw [if_neg hc] at h
      rcases ih (y :: acc) x h with h1 | h1
      · rcases List.mem_cons.mp h1 with rfl | h1
        · exact Or.inr (List.mem_cons_self x t)
        · exact Or.inl h1
      · exact Or.inr (List.mem_cons_of_mem y h1)

/-- The distinct city keys of a view, in first-seen order. -/
def uniqueCities (view : List Rec) : List String :=
  firstSeenGo [] (view.map Rec.primary_city)

/-- The group keys as groupby produces them (default sort equal to True of
pandas groupby, src/app.py lines 304 and 319): the distinct primary_city
values sorted ascending by the string order. -/
def sortedCities (view : List Rec) : List String :=
  stableSortBy strLeb (uniqueCities view)

/-- Arithmetic mean of a list of values, as pandas mean computes it on a
nonempty series. -/
def mean (xs : List ℚ) : ℚ := xs.sum / xs.length

/-- The rows of a view belonging to one city group. -/
def groupRows (view : List Rec) (k : String) : List Rec :=
  view.filter fun r => decide (r.primary_city = k)

/-- groupby on primary_city followed by mean of a value field: one pair per
distinct city, keyed in groupby's (ascending) key order, with the group's
arithmetic mean of the field. -/
def groupMeans (view : List Rec) (valF : Rec → ℚ) : List (String × ℚ) :=
  (sortedCities view).map fun k => (k, mean ((groupRows view k).map valF))

/-- Comparison used by sort_values with ascending equal to False on the
grouped means: by mean value, descending. -/
def meanDescLe (a b : String × ℚ) : Bool := decide (b.2 ≤ a.2)

/-- The top-K-cities pipeline of src/app.py lines 304 and 319:
groupby(primary_city)[field].mean().sort_values(ascending=False).head(K),
with the group keys in groupby's sorted order and the value sort stable. -/
def cityTopK (K : Nat) (view : List Rec) (valF : Rec → ℚ) : List (String × ℚ) :=
  (stableSortBy meanDescLe (groupMeans view valF)).take K

/-- Modelled from the spec's words, for comparison with cityTopK: the same
grouped means but with the group keys in first-seen order of the view (the
spec's claimed stable tie-break base), stably sorted by mean descending and
truncated to K. -/
def cityTopKFirstSeen (K : Nat) (view : List Rec) (valF : Rec → ℚ) : List (String × ℚ) :=
  (stableSortBy meanDescLe ((uniqueCities view).map
    fun k => (k, mean ((groupRows view k).map valF)))).take K

/-- Counterexample record: city "B" seen first, median income 5. -/
def cexB : Rec :=
  { zip_code := 90011, primary_city := "B", score_category := "Average",
    composite_score := 0, density_score := 0, transit_score := 0, income_score := 0,
    education_score := 0, housing_score := 0, median_income := 5, median_home_value := 5,
    estimated_population := 0 }

/-- Counterexample record: city "A" seen second, median income 5. -/
def cexA : Rec :=
  { zip_code := 90012, primary_city := "A", score_category := "Average",
    composite_score := 0, density_score := 0, transit_score := 0, income_score := 0,
    education_score := 0, housing_score := 0, median_income := 5, median_home_value := 5,
    estimated_population := 0 }

theorem groupMeans_cex :
    groupMeans [cexB, cexA] Rec.median_income = [("A", 5), ("B", 5)] := by
  have hu : uniqueCities [cexB, cexA] = ["B", "A"] := by
    rw [uniqueCities]
    simp [cexB, cexA, firstSeenGo]
  have hs : sortedCities [cexB, cexA] = ["A", "B"] := by
    rw [sortedCities, hu]
    simp [stableSortBy, insSorted, strLeb, charListLeb]
  have hmA : mean ((groupRows [cexB, cexA] "A").map Rec.median_income) = 5 := by
    have : groupRows [cexB, cexA] "A" = [cexA] := by simp [groupRows, cexB, cexA]
    rw [this]
    simp [mean, cexA]
  have hmB : mean ((groupRows [cexB, cexA] "B").map Rec.median_income) = 5 := by
    have : groupRows [cexB, cexA] "B" = [cexB] := by simp [groupRows, cexB, cexA]
    rw [this]
    simp [mean, cexB]
  rw [groupMeans, hs]
  simp [hmA, hmB]

/-- C3 counterexample: on a 2-record view whose cities appear in the order
"B" then "A" with equal group means, the code pipeline (groupby sorts keys
ascending before the stable mean sort) returns the tied groups as A then B,
whereas the claimed first-seen tie-break would return B then A. -/
theorem C3_counterexample :
    cityTopK 10 [cexB, cexA] Rec.median_income = [("A", 5), ("B", 5)]
  ∧ cityTopKFirstSeen 10 [cexB, cexA] Rec.median_income = [("B", 5), ("A", 5)]
  ∧ cityTopK 10 [cexB, cexA] Rec.median_income
      ≠ cityTopKFirstSeen 10 [cexB, cexA] Rec.median_income := by
  have h1 : cityTopK 10 [cexB, cexA] Rec.median_income = [("A", 5), ("B", 5)] := by
    rw [cityTopK, groupMeans_cex]
    simp [stableSortBy, insSorted, meanDescLe]
  have hu : uniqueCities [cexB, cexA] = ["B", "A"] := by
    rw [uniqueCities]
    simp [cexB, cexA, firstSeenGo]
  have hmA : mean ((groupRows [cexB, cexA] "A").map Rec.median_income) = 5 := by
    have : groupRows [cexB, cexA] "A" = [cexA] := by simp [groupRows, cexB, cexA]
    rw [this]
    simp [mean, cexA]
  have hmB : mean ((groupRows [cexB, cexA] "B").map Rec.median_income) = 5 := by
    have : groupRows [cexB, cexA] "B" = [cexB] := by simp [groupRows, cexB, cexA]
    rw [this]
    simp [mean, cexB]
  have h2 : cityTopKFirstSeen 10 [cexB, cexA] Rec.median_income = [("B", 5), ("A", 5)] := by
    rw [cityTopKFirstSeen, hu]
    simp only [List.map_cons, List.map_nil, hmA, hmB]
    simp [stableSortBy, insSorted, meanDescLe]
  refine ⟨h1, h2, ?_⟩
  rw [h1, h2]
  decide

theorem meanDescLe_trans (a b c : String × ℚ)
    (h1 : meanDescLe a b = true) (h2 : meanDescLe b c = true) : meanDescLe a c = true := by
  simp only [meanDescLe, decide_eq_true_eq] at h1 h2 ⊢
  exact le_trans h2 h1

theorem meanDescLe_total (a b : String × ℚ) : (meanDescLe a b || meanDescLe b a) = true := by
  simp only [meanDescLe, Bool.or_eq_true, decide_eq_true_eq]
  exact le_total b.2 a.2

theorem pairwise_strict_sortedCities (view : List Rec) :
    (sortedCities view).Pairwise fun a b => strLeb a b = true ∧ a ≠ b := by
  have hperm : (sortedCities view).Perm (uniqueCities view) :=
    perm_stableSortBy strLeb (uniqueCities view)
  have hnd : (sortedCities view).Nodup :=
    hperm.symm.nodup (nodup_firstSeenGo _ [] List.nodup_nil)
  have hle : (sortedCities view).Pairwise fun a b => strLeb a b = true :=
    sorted_stableSortBy (fun a b c => strLeb_trans a b c) strLeb_total (uniqueCities view)
  exact hle.and hnd

/-- C3 amended: the grouped means take one pair per distinct city of the view,
each carrying the arithmetic mean of the value field over that city's rows;
the top-K consumption sorts the groups by mean descending and truncates to the
first K; but ties are broken by ascending group-key (string) order — the order
groupby leaves its sorted keys in — not by the key's first-seen order in the
view. -/
theorem C3_groupMean_amended :
    ∀ (K : Nat) (view : List Rec) (valF : Rec → ℚ),
      (cityTopK K view valF).length = min K (groupMeans view valF).length
    ∧ (∀ p ∈ cityTopK K view valF,
        p.2 = mean ((groupRows view p.1).map valF) ∧ p.1 ∈ view.map Rec.primary_city)
    ∧ List.Pairwise
        (fun a b => b.2 ≤ a.2 ∧ (a.2 ≤ b.2 → strLeb a.1 b.1 = true ∧ a.1 ≠ b.1))
        (cityTopK K view valF) := by
  intro K view valF
  refine ⟨?_, ?_, ?_⟩
  · rw [cityTopK, List.length_take, (perm_stableSortBy _ _).length_eq]
  · intro p hp
    have hp2 : p ∈ stableSortBy meanDescLe (groupMeans view valF) :=
      (List.take_sublist _ _).mem hp
    have hp3 : p ∈ groupMeans view valF :=
      (perm_stableSortBy _ _).mem_iff.mp hp2
    rcases List.mem_map.mp hp3 with ⟨k, hk, rfl⟩
    refine ⟨rfl, ?_⟩
    have hk2 : k ∈ uniqueCities view :=
      (perm_stableSortBy strLeb (uniqueCities view)).mem_iff.mp hk
    rcases mem_firstSeenGo _ [] k hk2 with h | h
    · exact absurd h (List.not_mem_nil k)
    · exact h
  · have hS : (groupMeans view valF).Pairwise
        fun a b => strLeb a.1 b.1 = true ∧ a.1 ≠ b.1 := by
      rw [groupMeans, List.pairwise_map]
      refine (pairwise_strict_sortedCities view).imp ?_
      intro a b hab
      exact hab
    have hT := pairwiseT_stableSortBy meanDescLe_trans meanDescLe_total hS
    have hTake := hT.sublist (List.take_sublist K _)
    refine hTake.imp ?_
    intro a b hab
    refine ⟨?_, ?_⟩
    · have := hab.1
      simpa [meanDescLe] using this
    · intro hle
      exact hab.2 (by simpa [meanDescLe] using hle)

/-- Closed instance of C3 (amended): the length equation of the top-K output
at the counterexample view. -/
theorem C3_groupMean_amended_witness :
    (cityTopK 10 [cexB, cexA] Rec.median_income).length
      = min 10 (groupMeans [cexB, cexA] Rec.median_income).length :=
  (C3_groupMean_amended 10 [cexB, cexA] Rec.median_income).1

/-- Sum over the view of products of the two fields' deviations from their
column means.  Pearson r is this quantity divided by the square roots of the
two self-deviation sums; the degrees-of-freedom normalisers of pandas cov and
std cancel in the quotient, so only this combination matters. -/
def devProdSum (view : List Rec) (f g : Rec → ℚ) : ℚ :=
  (view.map fun r => (f r - mean (view.map f)) * (g r - mean (view.map g))).sum

/-- One cell of DataFrame.corr (src/app.py line 221): the Pearson correlation
of two fields over the view; none models the NaN pandas produces when either
field has zero deviation sum (zero variance, including views with fewer than
two rows). -/
noncomputable def corrCell (view : List Rec) (f g : Rec → ℚ) : Option ℝ :=
  if devProdSum view f f = 0 ∨ devProdSum view g g = 0 then none
  else some ((devProdSum view f g : ℝ) /
    (Real.sqrt (devProdSum view f f) * Real.sqrt (devProdSum view g g)))

/-- The correlation matrix handed to the heatmap (src/app.py lines 219-232):
cell (i, j) is the correlation of the i-th and j-th fields of the list
(out-of-range indices read a constant-zero field). -/
noncomputable def corrMatrix (view : List Rec) (fields : List (Rec → ℚ))
    (i j : Nat) : Option ℝ :=
  corrCell view (fields.getD i fun _ => 0) (fields.getD j fun _ => 0)

/-- The six score columns whose correlation matrix the score-analysis tab
renders. -/
def scoreFields : List (Rec → ℚ) :=
  [Rec.composite_score, Rec.density_score, Rec.transit_score,
   Rec.income_score, Rec.education_score, Rec.housing_score]

theorem devProdSum_comm (view : List Rec) (f g : Rec → ℚ) :
    devProdSum view f g = devProdSum view g f := by
  unfold devProdSum
  exact congrArg List.sum (List.map_congr_left fun r _ => mul_comm _ _)

theorem devProdSum_self_nonneg (view : List Rec) (f : Rec → ℚ) :
    0 ≤ devProdSum view f f := by
  unfold devProdSum
  refine List.sum_nonneg ?_
  intro x hx
  rcases List.mem_map.mp hx with ⟨r, _, rfl⟩
  exact mul_self_nonneg _

/-- C4: the correlation matrix is symmetric in its two field indices, and
every diagonal cell whose field has nonzero variance over the view (nonzero
self-deviation sum) equals exactly 1. -/
theorem C4_corrMatrix :
    ∀ (view : List Rec) (fields : List (Rec → ℚ)) (i j : Nat),
      corrMatrix view fields i j = corrMatrix view fields j i
    ∧ (devProdSum view (fields.getD i fun _ => 0) (fields.getD i fun _ => 0) ≠ 0 →
        corrMatrix view fields i i = some 1) := by
  intro view fields i j
  constructor
  · rw [corrMatrix, corrMatrix, corrCell, corrCell]
    by_cases h : devProdSum view (fields.getD i fun _ => 0) (fields.getD i fun _ => 0) = 0
      ∨ devProdSum view (fields.getD j fun _ => 0) (fields.getD j fun _ => 0) = 0
    · rw [if_pos h, if_pos (Or.symm h)]
    · rw [if_neg h, if_neg fun hc => h (Or.symm hc)]
      congr 1
      rw [devProdSum_comm view (fields.getD j fun _ => 0) (fields.getD i fun _ => 0),
        mul_comm]
  · intro h
    rw [corrMatrix, corrCell, if_neg fun hc => h (hc.elim id id)]
    have hnn : (0 : ℝ) ≤ ((devProdSum view (fields.getD i fun _ => 0)
        (fields.getD i fun _ => 0) : ℚ) : ℝ) := by
      exact_mod_cast devProdSum_self_nonneg view _
    rw [Real.mul_self_sqrt hnn, div_self (by exact_mod_cast h)]

/-- Closed instance of C4: symmetry of the (0,1) and (1,0) cells over the
scenario table, and the (0,0) diagonal cell equal to 1 (composite scores
10, 50, 90 have nonzero variance). -/
theorem C4_corrMatrix_witness :
    corrMatrix [scn1, scn2, scn3] scoreFields 0 1 = corrMatrix [scn1, scn2, scn3] scoreFields 1 0
  ∧ corrMatrix [scn1, scn2, scn3] scoreFields 0 0 = some 1 :=
  ⟨(C4_corrMatrix [scn1, scn2, scn3] scoreFields 0 1).1,
   (C4_corrMatrix [scn1, scn2, scn3] scoreFields 0 0).2 (by
     have hf : (scoreFields.getD 0 fun _ => (0 : ℚ)) = Rec.composite_score := rfl
     rw [hf]
     norm_num [devProdSum, mean, scn1, scn2, scn3])⟩

/-- pandas Series.mean as the key metrics call it (src/app.py lines 125-131):
NaN (none) on an empty series, the arithmetic mean otherwise. -/
def seriesMean (xs : List ℚ) : Option ℚ :=
  if xs.isEmpty then none else some (mean xs)

/-- The Python fixed-point format with two decimals applied to a float value:
the float NaN renders as the string "nan"; a number is rounded to two
decimals and printed (rounding mode simplified to half-up; the claims only
exercise the NaN branch).  Models the f-string of src/app.py line 125. -/
def pyFormat2 (x : Option ℚ) : String :=
  match x with
  | none => "nan"
  | some q =>
    let m : Int := Int.floor (q * 100 + 1 / 2)
    let sgn := if m < 0 then "-" else ""
    let a := m.natAbs
    sgn ++ toString (a / 100) ++ "." ++
      (if a % 100 < 10 then "0" else "") ++ toString (a % 100)

/-- The Avg Composite Score key metric (src/app.py line 125): the mean of the
filtered composite scores pushed through the two-decimal numeric format. -/
def avgCompositeText (view : List Rec) : String :=
  pyFormat2 (seriesMean (view.map Rec.composite_score))

/-- C5 counterexample: on the empty filter result the key-metric pipeline
renders the zero-row mean through the same numeric-format path as valid data,
yielding the float NaN rendering "nan" — the NaN is silently propagated and no
distinct undefined marker exists in the pipeline; the zero-variance
correlation cell is likewise the bare NaN placed unchanged in the heatmap
matrix.  This refutes the claim that degenerate statistics surface as an
explicit undefined marker rather than a propagated NaN. -/
theorem C5_counterexample :
    avgCompositeText [] = "nan"
  ∧ corrMatrix [] scoreFields 0 0 = none := by
  refine ⟨rfl, ?_⟩
  rw [corrMatrix, corrCell, if_pos (Or.inl ?_)]
  rfl

/-- C5 amended: degenerate statistics neither raise nor return a silent zero:
a mean over zero rows and a correlation cell over a zero-variance field
evaluate to NaN (none); that NaN is then propagated unacknowledged — the
metric text becomes the numeric rendering "nan" and the heatmap cell stays
NaN — instead of being converted to a distinct explicit undefined marker. -/
theorem C5_nan_propagation :
    ∀ (view : List Rec) (f g : Rec → ℚ),
      (view = [] → seriesMean (view.map Rec.composite_score) = none
        ∧ avgCompositeText view = "nan")
    ∧ (view ≠ [] → seriesMean (view.map Rec.composite_score)
        = some (mean (view.map Rec.composite_score)))
    ∧ (devProdSum view f f = 0 → corrCell view f g = none) := by
  intro view f g
  refine ⟨?_, ?_, ?_⟩
  · rintro rfl
    exact ⟨rfl, rfl⟩
  · intro h
    rw [seriesMean, if_neg]
    simp [h]
  · intro h
    rw [corrCell, if_pos (Or.inl h)]

/-- Closed instance of C5 (amended): on a one-record view the mean is a plain
some value (no silent zero, no failure). -/
theorem C5_nan_propagation_witness :
    seriesMean ([scn1].map Rec.composite_score)
      = some (mean ([scn1].map Rec.composite_score)) :=
  (C5_nan_propagation [scn1] Rec.composite_score Rec.composite_score).2.1 (by simp)

/-- Lowercase an ASCII code point, modelling the case-insensitive flag of the
search: uppercase letters map to lowercase, all other code points are
unchanged. -/
def lowerCode (n : Nat) : Nat := if 65 ≤ n ∧ n ≤ 90 then n + 32 else n

/-- The lowered code points of a string. -/
def textCodes (s : String) : List Nat := s.data.map fun c => lowerCode c.toNat

/-- Decimal digit code points of a natural number, least significant first,
with explicit fuel bounding the recursion. -/
def digitsRev : Nat → Nat → List Nat
  | 0, _ => []
  | fuel + 1, n => if n < 10 then [48 + n] else (48 + n % 10) :: digitsRev fuel (n / 10)

/-- The text astype(str) produces for an integer zip code: its decimal digit
code points (digits are unaffected by lowercasing). -/
def zipText (z : Nat) : List Nat := (digitsRev (z + 1) z).reverse

/-- One token of the compiled search pattern: a literal code point or the
any-character metacharacter. -/
inductive RegexTok
  | lit (c : Nat)
  | dot
deriving DecidableEq

/-- The code points of the regex metacharacters of re outside character
classes: dot, caret, dollar, star, plus, question mark, braces, brackets,
backslash, pipe and parentheses. -/
def metaCodes : List Nat := [46, 94, 36, 42, 43, 63, 123, 125, 91, 93, 92, 124, 40, 41]

/-- Whether a code point is a regex metacharacter. -/
def isMetaCode (n : Nat) : Bool := metaCodes.contains n

/-- How str.contains compiles the search term by default (regex equal to True,
src/app.py lines 533-536): the term is a regular expression, not a literal.
The model covers the regex fragment of literal characters plus the dot
(any-character) metacharacter, compiled case-insensitively.  A term using any
other metacharacter is outside the model and compiles to none: the real
program would give it full regex semantics, or raise re.error on a malformed
pattern, neither of which this embedding models — no literal semantics is
substituted for it. -/
def parseTerm (term : String) : Option (List RegexTok) :=
  if term.data.all fun c => !isMetaCode c.toNat || decide (c.toNat = 46) then
    some (term.data.map fun c =>
      if c.toNat = 46 then RegexTok.dot else RegexTok.lit (lowerCode c.toNat))
  else none

/-- Does one pattern token match one lowered code point. -/
def tokMatch : RegexTok → Nat → Bool
  | RegexTok.dot, _ => true
  | RegexTok.lit c, d => c == d

/-- Does the pattern match a prefix of the text. -/
def matchHere : List RegexTok → List Nat → Bool
  | [], _ => true
  | _ :: _, [] => false
  | t :: p, d :: s => tokMatch t d && matchHere p s

/-- re.search semantics: does the pattern match starting at some position of
the text. -/
def searchB (p : List RegexTok) : List Nat → Bool
  | [] => matchHere p []
  | d :: s => matchHere p (d :: s) || searchB p s

/-- Whether the first code list is an initial segment of the second. -/
def leadEq : List Nat → List Nat → Bool
  | [], _ => true
  | _ :: _, [] => false
  | a :: p, b :: s => (a == b) && leadEq p s

/-- Whether the first code list occurs contiguously inside the second:
literal substring occurrence. -/
def occursIn (p : List Nat) : List Nat → Bool
  | [] => leadEq p []
  | d :: s => leadEq p (d :: s) || occursIn p s

/-- The search mask of src/app.py lines 533-537 for a compiled pattern: a
record matches when the pattern matches (as a case-insensitive regex)
somewhere in the string form of zip_code, of primary_city, or of
score_category — any of the three. -/
def rowMatch (p : List RegexTok) (r : Rec) : Bool :=
  searchB p (zipText r.zip_code) ||
  searchB p (textCodes r.primary_city) ||
  searchB p (textCodes r.score_category)

/-- The data-table search (src/app.py lines 530-540): an empty term skips the
mask entirely (the view is kept as is); otherwise the rows matching the
term's regex are kept.  The result is none exactly when the term lies outside
the modelled literal-plus-dot regex fragment. -/
def searchFilter (term : String) (view : List Rec) : Option (List Rec) :=
  if term = "" then some view
  else (parseTerm term).map fun p => view.filter (rowMatch p)

/-- The search as the spec's words describe it, for comparison with
searchFilter: case-insensitive literal substring occurrence of the term in
any of the three text fields; empty term keeps everything. -/
def searchFilterSpec (term : String) (view : List Rec) : List Rec :=
  if term = "" then view
  else
    view.filter fun r =>
      occursIn (textCodes term) (zipText r.zip_code) ||
      occursIn (textCodes term) (textCodes r.primary_city) ||
      occursIn (textCodes term) (textCodes r.score_category)

/-- C6 counterexample: the term consisting of the letter l followed by a dot
is not a literal substring of "Los Angeles" (nor of the zip or the
category), yet the code keeps the record because str.contains interprets the
term as a regex and the dot matches the letter o.  The code's search filter
therefore disagrees with the claimed case-insensitive substring
semantics. -/
theorem C6_counterexample :
    searchFilter "l." [scn1] = some [scn1]
  ∧ searchFilterSpec "l." [scn1] = []
  ∧ searchFilter "l." [scn1] ≠ some (searchFilterSpec "l." [scn1]) := by
  refine ⟨by decide, by decide, ?_⟩
  intro h
  have h1 : searchFilter "l." [scn1] = some [scn1] := by decide
  have h2 : searchFilterSpec "l." [scn1] = [] := by decide
  rw [h1, h2] at h
  exact absurd h (by decide)

theorem matchHere_lit (p s : List Nat) :
    matchHere (p.map RegexTok.lit) s = leadEq p s := by
  induction p generalizing s with
  | nil => cases s <;> rfl
  | cons a q ih =>
    cases s with
    | nil => rfl
    | cons b t =>
      rw [List.map_cons, matchHere, leadEq, ih]
      rfl

theorem searchB_lit (p s : List Nat) :
    searchB (p.map RegexTok.lit) s = occursIn p s := by
  induction s with
  | nil => rw [searchB, occursIn, matchHere_lit]
  | cons d t ih => rw [searchB, occursIn, matchHere_lit, ih]

theorem parseTerm_nometa (term : String)
    (h : ∀ c ∈ term.data, isMetaCode c.toNat = false) :
    parseTerm term = some ((textCodes term).map RegexTok.lit) := by
  have hguard : (term.data.all fun c => !isMetaCode c.toNat || decide (c.toNat = 46))
      = true := by
    refine List.all_eq_true.mpr fun c hc => ?_
    rw [h c hc]
    rfl
  rw [parseTerm, if_pos hguard]
  congr 1
  rw [textCodes, List.map_map]
  refine List.map_congr_left fun c hc => ?_
  rw [if_neg]
  · rfl
  · intro he
    have hm := h c hc
    rw [he] at hm
    exact absurd hm (by decide)

/-- C6 amended: the search keeps exactly the records where the term matches —
as a case-insensitive regular expression (re.search via str.contains with its
default regex interpretation), not as a literal substring — in the textual
form of zip_code, primary_city or score_category, any of the three sufficing;
for terms free of regex metacharacters this coincides with case-insensitive
substring matching; and the empty term is the identity on the view (same row
set and order).  Terms whose metacharacters go beyond the modelled
literal-plus-dot fragment compile to none, so nothing is asserted of them. -/
theorem C6_search_amended :
    ∀ (term : String) (view : List Rec),
      searchFilter "" view = some view
    ∧ (term ≠ "" → ∀ p, parseTerm term = some p →
        searchFilter term view = some (view.filter (rowMatch p))
        ∧ ∀ r : Rec, r ∈ view.filter (rowMatch p) ↔ r ∈ view ∧ rowMatch p r = true)
    ∧ ((∀ c ∈ term.data, isMetaCode c.toNat = false) →
        searchFilter term view = some (searchFilterSpec term view)) := by
  intro term view
  refine ⟨?_, ?_, ?_⟩
  · rw [searchFilter, if_pos rfl]
  · intro h p hp
    refine ⟨?_, fun r => List.mem_filter⟩
    rw [searchFilter, if_neg h, hp]
    rfl
  · intro h
    by_cases he : term = ""
    · rw [searchFilter, searchFilterSpec, if_pos he, if_pos he]
    · rw [searchFilter, searchFilterSpec, if_neg he, if_neg he, parseTerm_nometa term h]
      exact congrArg some (List.filter_congr fun r _ => by
        simp only [rowMatch, searchB_lit])

/-- Closed instance of C6 (amended): the empty term is the identity on the
scenario row, and a metacharacter-free term agrees with literal substring
search there. -/
theorem C6_search_amended_witness :
    searchFilter "" [scn1] = some [scn1]
  ∧ searchFilter "angeles" [scn1] = some (searchFilterSpec "angeles" [scn1]) :=
  ⟨(C6_search_amended "" [scn1]).1,
   (C6_search_amended "angeles" [scn1]).2.2 (by decide)⟩

/-- One row of the raw table as get_coordinates sees it: the zip code and the
latitude and longitude cell values after numeric coercion, where none models
a missing or non-numeric entry (NaN after to_numeric with errors coerce). -/
structure GeoRow where
  zip : Nat
  lat : Option ℚ
  lon : Option ℚ
deriving DecidableEq

/-- The loaded table together with whether it already carries latitude and
longitude columns (the branch test of src/app.py line 43). -/
structure GeoTable where
  hasCoordCols : Bool
  rows : List GeoRow

/-- The LA County center latitude used as fallback (src/app.py line 75). -/
def laCenterLat : ℚ := 34.0522

/-- The LA County center longitude used as fallback (src/app.py line 75). -/
def laCenterLon : ℚ := -118.2437

/-- get_coordinates (src/app.py lines 40-79).  If the latitude and longitude
columns already exist, the values are only coerced to numeric — missing and
non-numeric entries stay NaN (none) — and the table is returned at once
(lines 43-47), with no fallback fill.  Otherwise each zip code is looked up
in the geocoder (none models an unknown result), and afterwards every missing
coordinate is filled with the LA County center (lines 71-77). -/
def getCoordinates (geo : Nat → Option (ℚ × ℚ)) (t : GeoTable) : List GeoRow :=
  if t.hasCoordCols then
    t.rows
  else
    ((t.rows.map fun r =>
        match geo r.zip with
        | some p => { r with lat := some p.1, lon := some p.2 }
        | none => { r with lat := none, lon := none }).map
      fun r => { r with lat := some (r.lat.getD laCenterLat),
                        lon := some (r.lon.getD laCenterLon) })

/-- The map-ready rows (src/app.py line 424): rows whose two coordinates are
both present (notna). -/
def mapReady (rows : List GeoRow) : List GeoRow :=
  rows.filter fun r => r.lat.isSome && r.lon.isSome

/-- A geocoder that resolves nothing. -/
def geoNone : Nat → Option (ℚ × ℚ) := fun _ => none

/-- Counterexample row: the input table carries coordinate columns but this
row's latitude cell is missing. -/
def cexGeoRow : GeoRow := { zip := 90001, lat := none, lon := some 5 }

/-- Counterexample table: coordinate columns exist, one row has a missing
latitude. -/
def cexGeoTable : GeoTable := { hasCoordCols := true, rows := [cexGeoRow] }

/-- C7 counterexample: when the input already carries latitude and longitude
columns, get_coordinates returns the rows unchanged — a missing coordinate is
not replaced by the fallback center, the record keeps a NaN coordinate, and
the map step then drops it from the map-ready output, contradicting the claim
that every record ends mappable with the fallback substituted. -/
theorem C7_counterexample :
    getCoordinates geoNone cexGeoTable = [cexGeoRow]
  ∧ (getCoordinates geoNone cexGeoTable).all (fun r => r.lat.isSome) = false
  ∧ mapReady (getCoordinates geoNone cexGeoTable) = [] :=
  ⟨rfl, rfl, rfl⟩

/-- C7 amended: the fallback substitution happens only on the geocoding
branch: when the latitude and longitude columns are absent, every record of
the output carries numeric coordinates, an unresolved zip receives exactly
the LA County center pair, and every record survives the map-ready filter;
but when the columns already exist, the rows pass through unchanged, so a
missing or non-numeric coordinate stays NaN and that record is dropped from
the map-ready output. -/
theorem C7_geocode_amended :
    ∀ (geo : Nat → Option (ℚ × ℚ)) (t : GeoTable),
      (t.hasCoordCols = true → getCoordinates geo t = t.rows)
    ∧ (t.hasCoordCols = false →
        getCoordinates geo t = t.rows.map fun r =>
          { r with lat := some (((geo r.zip).map Prod.fst).getD laCenterLat),
                   lon := some (((geo r.zip).map Prod.snd).getD laCenterLon) })
    ∧ (t.hasCoordCols = false →
        mapReady (getCoordinates geo t) = getCoordinates geo t) := by
  intro geo t
  have hmap : t.hasCoordCols = false →
      getCoordinates geo t = t.rows.map fun r =>
        { r with lat := some (((geo r.zip).map Prod.fst).getD laCenterLat),
                 lon := some (((geo r.zip).map Prod.snd).getD laCenterLon) } := by
    intro h
    rw [getCoordinates, if_neg (by rw [h]; exact Bool.false_ne_true), List.map_map]
    refine List.map_congr_left fun r _ => ?_
    cases hgeo : geo r.zip <;> simp [Function.comp, hgeo]
  refine ⟨?_, hmap, ?_⟩
  · intro h
    rw [getCoordinates, if_pos h]
  · intro h
    rw [hmap h, mapReady]
    refine List.filter_eq_self.mpr ?_
    intro r hr
    rcases List.mem_map.mp hr with ⟨r0, _, rfl⟩
    rfl

/-- Closed instance of C7 (amended): on a table without coordinate columns and
a geocoder that resolves nothing, every record survives the map-ready filter
(with the center fallback substituted). -/
theorem C7_geocode_amended_witness :
    mapReady (getCoordinates geoNone { hasCoordCols := false, rows := [cexGeoRow] })
      = getCoordinates geoNone { hasCoordCols := false, rows := [cexGeoRow] } :=
  (C7_geocode_amended geoNone { hasCoordCols := false, rows := [cexGeoRow] }).2.2 rfl

/-- The column names of a dataframe modelled as a list of named columns. -/
def dfCols {α : Type} (d : List (String × List α)) : List String := d.map Prod.fst

/-- The typed error of a column selection naming unknown columns: pandas
raises a KeyError listing the missing names. -/
inductive SelectError
  | invalidField (missing : List String)
deriving DecidableEq

/-- Column projection display_df[selected_cols] (src/app.py line 553): pandas
returns exactly the requested columns in the requested order, and raises a
KeyError naming the missing columns when any requested name is not a column
of the frame; the raised error is modelled as Except.error with the typed
invalidField payload. -/
def selectCols {α : Type} (names : List String) (d : List (String × List α)) :
    Except SelectError (List (String × List α)) :=
  if names.all (fun n => (dfCols d).contains n) then
    Except.ok (names.map fun n => (n, (List.lookup n d).getD []))
  else
    Except.error (SelectError.invalidField
      (names.filter fun n => !(dfCols d).contains n))

/-- The column-selection step of the data table (src/app.py lines 552-553):
an empty selection skips the projection entirely and keeps the current view;
a nonempty selection projects. -/
def selectStep {α : Type} (names : List String) (d : List (String × List α)) :
    Except SelectError (List (String × List α)) :=
  if names.isEmpty then Except.ok d else selectCols names d

/-- The header of to_csv with index equal to False (src/app.py line 563): the
column names of the exported view, in order, comma-separated and with no
index column. -/
def csvHeaderLine {α : Type} (d : List (String × List α)) : String :=
  String.intercalate "," (dfCols d)

theorem contains_iff_mem_str (l : List String) (n : String) :
    l.contains n = true ↔ n ∈ l :=
  ⟨fun h => List.mem_of_elem_eq_true h, fun h => List.elem_eq_true_of_mem h⟩

/-- C9: when every requested name is a column of the frame, the projection
succeeds and retains exactly the requested columns in the requested order;
when some requested name is unknown, the operation fails at once with the
typed invalidField error carrying a nonempty list of exactly the unknown
requested names — it never silently drops a name, never adds extras, and is
never silently ignored. -/
theorem C9_selectCols :
    ∀ (α : Type) (names : List String) (d : List (String × List α)),
      ((∀ n ∈ names, n ∈ dfCols d) →
        ∃ p, selectCols names d = Except.ok p ∧ dfCols p = names)
    ∧ ((∃ n ∈ names, n ∉ dfCols d) →
        ∃ missing, selectCols names d
            = Except.error (SelectError.invalidField missing)
          ∧ missing ≠ [] ∧ ∀ m, m ∈ missing ↔ m ∈ names ∧ m ∉ dfCols d) := by
  intro α names d
  by_cases hall : names.all (fun n => (dfCols d).contains n) = true
  · refine ⟨?_, ?_⟩
    · intro _
      refine ⟨names.map fun n => (n, (List.lookup n d).getD []), ?_, ?_⟩
      · rw [selectCols, if_pos hall]
      · rw [dfCols, List.map_map]
        exact (List.map_congr_left fun n _ => rfl).trans (List.map_id names)
    · intro hbad
      rcases hbad with ⟨n, hn, hmem⟩
      have := List.all_eq_true.mp hall n hn
      exact absurd ((contains_iff_mem_str _ _).mp this) hmem
  · refine ⟨?_, ?_⟩
    · intro hgood
      refine absurd (List.all_eq_true.mpr fun n hn => ?_) hall
      exact (contains_iff_mem_str _ _).mpr (hgood n hn)
    · intro _
      refine ⟨names.filter fun n => !(dfCols d).contains n, ?_, ?_, ?_⟩
      · rw [selectCols, if_neg hall]
      · rcases List.all_eq_false.mp (Bool.eq_false_iff.mpr hall) with ⟨n, hn, hc⟩
        refine List.ne_nil_of_mem (List.mem_filter.mpr ⟨hn, ?_⟩)
        cases hb : (dfCols d).contains n
        · rfl
        · exact absurd hb hc
      · intro m
        rw [List.mem_filter]
        constructor
        · rintro ⟨h1, h2⟩
          refine ⟨h1, fun hm => ?_⟩
          have hc : (dfCols d).contains m = true := List.elem_eq_true_of_mem hm
          rw [hc] at h2
          exact absurd h2 (by decide)
        · rintro ⟨h1, h2⟩
          refine ⟨h1, ?_⟩
          cases hb : (dfCols d).contains m
          · rfl
          · exact absurd (List.mem_of_elem_eq_true hb) h2

/-- Closed instance of C9: on a two-column frame, selecting an existing column
succeeds with exactly that column, and selecting an unknown column fails with
the typed invalidField error. -/
theorem C9_selectCols_witness :
    (∃ p, selectCols ["b"] [("a", [(1 : ℚ)]), ("b", [2])] = Except.ok p
      ∧ dfCols p = ["b"])
  ∧ (∃ missing, selectCols ["zz"] [("a", [(1 : ℚ)]), ("b", [2])]
        = Except.error (SelectError.invalidField missing)
      ∧ missing ≠ []
      ∧ ∀ m, m ∈ missing ↔ m ∈ ["zz"] ∧ m ∉ dfCols [("a", [(1 : ℚ)]), ("b", [2])]) :=
  ⟨(C9_selectCols ℚ ["b"] [("a", [(1 : ℚ)]), ("b", [2])]).1 (by decide),
   (C9_selectCols ℚ ["zz"] [("a", [(1 : ℚ)]), ("b", [2])]).2 ⟨"zz", by decide, by decide⟩⟩

/-- C10 (implicit): when the selected-columns list is empty, the projection
step is skipped entirely, so the displayed view and the CSV export are the
unchanged current view, retaining all of its columns, rather than a
zero-column table. -/
theorem C10_empty_selection :
    ∀ (α : Type) (d : List (String × List α)),
      selectStep [] d = Except.ok d
    ∧ (∀ p, selectStep [] d = Except.ok p →
        dfCols p = dfCols d ∧ csvHeaderLine p = csvHeaderLine d) := by
  intro α d
  have h1 : selectStep ([] : List String) d = Except.ok d := rfl
  refine ⟨h1, ?_⟩
  intro p hp
  rw [h1] at hp
  cases hp
  exact ⟨rfl, rfl⟩

/-- Closed instance of C10: the empty selection keeps the two-column frame. -/
theorem C10_empty_selection_witness :
    selectStep [] [("a", [(1 : ℚ)]), ("b", [2])]
      = Except.ok [("a", [(1 : ℚ)]), ("b", [2])] :=
  (C10_empty_selection ℚ [("a", [(1 : ℚ)]), ("b", [2])]).1
